import Mathlib

/-!
Verification development for the `lz` build/orchestration script of the
lezer-parser/lezer monorepo.  The source is a Node.js CLI; the relevant
operations are shallowly embedded here as pure Lean functions.  The
filesystem is modelled as a map from path strings to optional contents
or optional modification times, side effects as explicit event traces,
and the single-threaded watch scheduler as a small state machine plus a
drain function over the pending-work list.
-/

namespace Lz

/-- Names of the packages registered in the first script's static
`packages` array (in registry order). -/
def registryV1 : List String :=
  ["common", "lr", "generator", "javascript", "css", "html", "xml",
   "cpp", "java", "python", "json", "rust", "lezer", "markdown"]

/-! ### String helpers

JavaScript's `String.prototype.split` on a one-character separator,
first-occurrence search of a pattern, `RegExp.test` for a literal
pattern, non-global `String.prototype.replace` for a literal pattern,
and `Number` on a digit string are modelled by structural recursion
over the character list, so that every definition evaluates inside the
kernel. -/

/-- Does `pat` stand at the start of `s`? -/
def leadsWith : List Char → List Char → Bool
  | [], _ => true
  | _ :: _, [] => false
  | p :: ps, c :: cs => p == c && leadsWith ps cs

/-- Index of the first occurrence of `pat` in `s`, if any. -/
def findPat (pat : List Char) : List Char → Option Nat
  | [] => if leadsWith pat [] then some 0 else none
  | c :: cs =>
    if leadsWith pat (c :: cs) then some 0
    else (findPat pat cs).map (· + 1)

/-- Embedding of `new RegExp(pat).test(s)` for a literal (escaped) pattern. -/
def containsPat (s pat : String) : Bool := (findPat pat.toList s.toList).isSome

/-- JavaScript `s.replace(pat, repl)` with a non-global literal
pattern: replace the first occurrence only. -/
def replaceFirst (s pat repl : String) : String :=
  match findPat pat.toList s.toList with
  | none => s
  | some i =>
    String.mk (s.toList.take i ++ repl.toList ++ s.toList.drop (i + pat.toList.length))

/-- Split a character list on a separator character. -/
def splitChar (c : Char) : List Char → List (List Char)
  | [] => [[]]
  | d :: rest =>
    match splitChar c rest with
    | [] => [[]]
    | g :: gs => if d == c then [] :: g :: gs else (d :: g) :: gs

/-- JavaScript `s.split(c)` for a one-character separator. -/
def jsSplit (s : String) (c : Char) : List String :=
  (splitChar c s.toList).map String.mk

/-- JavaScript `Number(s)` for a digit string. -/
def jsNat (s : String) : Nat :=
  s.toList.foldl (fun n c => n * 10 + (c.toNat - 48)) 0

/-- Result of `changelog`: the three lists of extracted commit notes,
`{fix: [], feature: [], breaking: []}`. -/
structure Changes where
  fix : List String
  feature : List String
  breaking : List String
deriving DecidableEq

/-- Embedding of `bumpVersion(version, changes)` from the first script:
splits the version on `"."`, then
`if (changes.breaking.length && major != "0") return major+1 .0.0`;
`if (changes.feature.length || changes.breaking.length)` bump minor;
`if (changes.fix.length)` bump patch; otherwise
`throw new Error("No new release notes!")`. -/
def bumpVersion (version : String) (changes : Changes) : Except String String :=
  let parts := jsSplit version '.'
  let major := parts.getD 0 ""
  let minor := parts.getD 1 ""
  let patch := parts.getD 2 ""
  if changes.breaking.length != 0 && major != "0" then
    Except.ok (toString (jsNat major + 1) ++ ".0.0")
  else if changes.feature.length != 0 || changes.breaking.length != 0 then
    Except.ok (major ++ "." ++ toString (jsNat minor + 1) ++ ".0")
  else if changes.fix.length != 0 then
    Except.ok (major ++ "." ++ minor ++ "." ++ toString (jsNat patch + 1))
  else
    Except.error "No new release notes!"

/-- Embedding of `bumpVersion` from the second script, whose middle
conditions differ: minor bump on
`changes.feature.length && major != "0" || changes.breaking.length`,
patch bump on `changes.fix.length || changes.feature.length`. -/
def bumpVersionV2 (version : String) (changes : Changes) : Except String String :=
  let parts := jsSplit version '.'
  let major := parts.getD 0 ""
  let minor := parts.getD 1 ""
  let patch := parts.getD 2 ""
  if changes.breaking.length != 0 && major != "0" then
    Except.ok (toString (jsNat major + 1) ++ ".0.0")
  else if (changes.feature.length != 0 && major != "0") || changes.breaking.length != 0 then
    Except.ok (major ++ "." ++ toString (jsNat minor + 1) ++ ".0")
  else if changes.fix.length != 0 || changes.feature.length != 0 then
    Except.ok (major ++ "." ++ minor ++ "." ++ toString (jsNat patch + 1))
  else
    Except.error "No new release notes!"

/-! ## Dependency scan (`Pkg.dependencies`)

`this._dependencies` is a JavaScript array holding the `Pkg` objects
looked up from `packageNames`.  The guard on each regex match `m` is
`!this._dependencies.includes(m[1]) && packageNames[m[1]]`, where
`m[1]` is the imported package *name* (a string) while the array holds
`Pkg` *objects*.  `Array.includes` uses SameValueZero equality, under
which a string is never equal to an object; `JsValue` models the two
runtime kinds of value involved, with `pkgRef n` standing for the
unique `Pkg` object registered under name `n`. -/

inductive JsValue where
  | str (s : String)
  | pkgRef (name : String)
deriving DecidableEq

/-- One iteration of the `while (m = imp.exec(text))` loop body of the
`dependencies` getter: push `packageNames[m[1]]` when the (string vs
object) `includes` test fails and the name is registered. -/
def depScanStep (registered : String → Bool) (deps : List JsValue) (name : String) :
    List JsValue :=
  if !(deps.contains (JsValue.str name)) && registered name then
    deps ++ [JsValue.pkgRef name]
  else deps

/-- The `dependencies` getter over the concatenated sequence of import
names matched across the package's source files, in match order. -/
def dependenciesScan (registered : String → Bool) (importNames : List String) :
    List JsValue :=
  importNames.foldl (depScanStep registered) []

/-! ## Staleness check (`fileTime`, `rebuild`)

`fileTime(path)` returns `stat.mtimeMs`, or `-1` when the file does
not exist (ENOENT).  The filesystem's modification times are modelled
as a map from paths to optional `Nat` times (a real mtimeMs is
non-negative; a missing file is `none`). -/

def FSTimes : Type := String → Option Nat

/-- Embedding of `fileTime(path)`: the mtime, or the sentinel `-1` for
a missing file. -/
def fileTime (t : FSTimes) (p : String) : Int :=
  match t p with
  | some n => (n : Int)
  | none => -1

/-- The options record `{esm, always}` passed to `rebuild`. -/
structure BuildOptions where
  esm : Bool
  always : Bool

/-- The `time` computed by `rebuild`:
`Math.min(fileTime(pkg.cjsFile), options.esm ? fileTime(pkg.esmFile) : Infinity)`
(`Math.min(x, Infinity) = x`). -/
def oldestOutputTime (t : FSTimes) (cjsFile esmFile : String) (esm : Bool) : Int :=
  if esm then min (fileTime t cjsFile) (fileTime t esmFile) else fileTime t cjsFile

/-- Does `rebuild` go on to bundle?  The code returns early (no-op) iff
`!options.always` and `time >= 0` and no input file has
`fileTime(file) >= time`. -/
def rebuildFires (t : FSTimes) (cjsFile esmFile : String) (inputFiles : List String)
    (opts : BuildOptions) : Bool :=
  opts.always ||
    !(decide (0 ≤ oldestOutputTime t cjsFile esmFile opts.esm) &&
      !(inputFiles.any (fun f =>
        decide (oldestOutputTime t cjsFile esmFile opts.esm ≤ fileTime t f))))

/-- The observable actions of one `rebuild` call: when the staleness
check does not return early, it logs `Building ...`, runs the bundler,
and logs `Done ...`; otherwise nothing happens. -/
def rebuildActions (t : FSTimes) (cjsFile esmFile : String) (inputFiles : List String)
    (opts : BuildOptions) : List String :=
  if rebuildFires t cjsFile esmFile inputFiles opts then
    ["log Building", "bundle", "log Done"]
  else []

/-- The spec's `newest_input_time`: maximum modification time across
the input files, with the sentinel `-1` for an empty set or missing
files. -/
def newestInputTime (t : FSTimes) (inputFiles : List String) : Int :=
  (inputFiles.map (fileTime t)).foldr max (-1)

/-- The claim's staleness predicate, following the spec's words: a
rebuild is required iff the minimum modification time over the
required output files is *strictly less* than the maximum modification
time over the input files, or the force flag is set, or some required
output file is missing. -/
def specRebuildRequired (t : FSTimes) (cjsFile esmFile : String)
    (inputFiles : List String) (opts : BuildOptions) : Bool :=
  opts.always
  || (if opts.esm then [cjsFile, esmFile] else [cjsFile]).any (fun p => (t p).isNone)
  || decide (oldestOutputTime t cjsFile esmFile opts.esm < newestInputTime t inputFiles)

/-- The amended staleness predicate: as the claim states it, but with
*less than or equal* in place of *strictly less* (at exact equality of
the two times the code does rebuild). -/
def amendedRebuildRequired (t : FSTimes) (cjsFile esmFile : String)
    (inputFiles : List String) (opts : BuildOptions) : Bool :=
  opts.always
  || (if opts.esm then [cjsFile, esmFile] else [cjsFile]).any (fun p => (t p).isNone)
  || decide (oldestOutputTime t cjsFile esmFile opts.esm ≤ newestInputTime t inputFiles)

/-- The concrete filesystem used to separate the code from the claim
as stated: the cjs bundle and the single input file both have
modification time 5. -/
def tEqual : FSTimes := fun p =>
  if p = "dist/index.js" then some 5
  else if p = "src/index.ts" then some 5
  else none

/-! ## Package descriptors and `rollupConfig`

`new Pkg(name, options)` fixes `name`, `entry` (defaulting to
"index") and `dir = path.join(root, name)`; `entrySource`, `esmFile`
and `cjsFile` are derived paths.  `rollupConfig(options)` returns
`this._rollup || (this._rollup = {...})`: the configuration object is
computed from the *first* call's options and cached on the package for
the lifetime of the process. -/

structure Pkg where
  name : String
  entry : String
  dir : String
deriving DecidableEq

/-- Embedding of `new Pkg(name, options)` under registry root `root`
(`options.entry || "index"` already resolved to `entry`). -/
def mkPkg (root name entry : String) : Pkg :=
  { name := name, entry := entry, dir := root ++ "/" ++ name }

/-- The path `path.join(this.dir, "src", this.entry + ".ts")`. -/
def entrySource (p : Pkg) : String := p.dir ++ "/src/" ++ p.entry ++ ".ts"

/-- The path `path.join(this.dir, "dist", "index.es.js")`. -/
def esmFileOf (p : Pkg) : String := p.dir ++ "/dist/index.es.js"

/-- The path `path.join(this.dir, "dist", "index.js")`. -/
def cjsFileOf (p : Pkg) : String := p.dir ++ "/dist/index.js"

/-- One entry of the rollup configuration's `output` array (the
`plugins` and `external` fields hold functions and are modelled
separately). -/
structure OutputConf where
  format : String
  file : String
  sourcemap : Bool
  externalLiveBindings : Bool
deriving DecidableEq

/-- The data fields of the rollup configuration object. -/
structure RConfig where
  input : String
  output : List OutputConf
deriving DecidableEq

/-- The `external(id)` predicate of the configuration:
`id != "tslib" && !/^\.?\//.test(id)`. -/
def rollupExternal (id : String) : Bool :=
  id != "tslib" && !(leadsWith ['/'] id.toList || leadsWith ['.', '/'] id.toList)

/-- The configuration object literal built by `rollupConfig(options)`
on a cache miss: the esm output entry is present iff `options.esm`,
followed by the cjs output entry. -/
def mkRollupConfig (p : Pkg) (opts : BuildOptions) : RConfig :=
  { input := entrySource p
  , output :=
      (if opts.esm then
        [{ format := "esm", file := esmFileOf p, sourcemap := true,
           externalLiveBindings := false }]
      else []) ++
      [{ format := "cjs", file := cjsFileOf p, sourcemap := true,
         externalLiveBindings := false }] }

/-- Embedding of `rollupConfig(options)` with the memo field `this._rollup` passed
and returned explicitly: `this._rollup || (this._rollup = {...})`. -/
def rollupConfig (p : Pkg) (cache : Option RConfig) (opts : BuildOptions) :
    RConfig × Option RConfig :=
  match cache with
  | some c => (c, some c)
  | none => (mkRollupConfig p opts, some (mkRollupConfig p opts))

/-- Does a configuration produce the alternate esm output? -/
def hasEsmOutput (c : RConfig) : Bool := c.output.any (fun o => o.format == "esm")

/-! ## `maybeWriteFile` and `runRollup`

`runRollup(config)` iterates over `config.output`; for each output it
generates the bundle and walks the emitted files: a file whose name
does not match `/\.d\.ts/` is written unconditionally; a declaration
file is written only for the `"cjs"` output ("Don't double-emit
declaration files") and through `maybeWriteFile`, which skips the
write when the on-disk size and bytes already match; a `.d.ts.map`
file gets its `"sourceRoot":""` patched first; finally `file.map`, if
present, is written unconditionally to `fileName + ".map"`.

The filesystem is a map from paths to optional contents, and each
actual `fsp.writeFile` call (= each mtime bump) is recorded as a
`WriteEvent` carrying the branch it came from, the enclosing output's
format, and the content found on disk just before the write. -/

/-- The test `/\.d\.ts/.test(fileName)`. -/
def testDts (name : String) : Bool := containsPat name ".d.ts"

/-- The test `/\.d\.ts\.map/.test(fileName)`. -/
def testDtsMap (name : String) : Bool := containsPat name ".d.ts.map"

/-- Embedding of `path.dirname` for a slash-separated path. -/
def dirname (p : String) : String :=
  let parts := jsSplit p '/'
  if parts.length ≤ 1 then "." else String.intercalate "/" parts.dropLast

/-- The filesystem: path contents. -/
def FS : Type := String → Option String

/-- The write `fsp.writeFile(p, c)`. -/
def writeFS (fs : FS) (p c : String) : FS :=
  fun q => if q = p then some c else fs q

/-- Embedding of `maybeWriteFile(path, content)`: stat the file (a
missing file has sentinel size `-1`, hence always differs), and write
only when the size or the bytes differ.  Returns the new filesystem
and whether a write happened. -/
def maybeWriteFile (fs : FS) (p c : String) : FS × Bool :=
  match fs p with
  | none => (writeFS fs p c, true)
  | some old =>
    if old.length != c.length || old != c then (writeFS fs p c, true)
    else (fs, false)

/-- Which branch of the per-file loop performed a write. -/
inductive WriteKind where
  | bundle
  | decl
  | srcmap
deriving DecidableEq

/-- One `fsp.writeFile` call performed by `runRollup`. -/
structure WriteEvent where
  path : String
  content : String
  kind : WriteKind
  fmt : String
  prior : Option String
deriving DecidableEq

/-- One file of `result.output` from `bundle.generate(output)`:
its `fileName`, its content (`file.code || file.source`), and its
optional `file.map` (stringified). -/
structure EmittedFile where
  fileName : String
  code : String
  map : Option String
deriving DecidableEq

/-- One entry of `config.output` together with the files the bundler
generated for it. -/
structure OutputSpec where
  format : String
  file : String
  files : List EmittedFile
deriving DecidableEq

/-- The `"sourceRoot":""` patch applied to `.d.ts.map` files. -/
def patchSourceRoot (name code : String) : String :=
  if testDtsMap name then
    replaceFirst code "\"sourceRoot\":\"\"" "\"sourceRoot\":\"../..\""
  else code

/-- The branching part of the `for (let file of result.output)` loop
body for one emitted file: unconditional write for non-declaration
files, `maybeWriteFile` for declaration files of the cjs output only,
nothing for declaration files of other outputs. -/
def fileStep (fmt dir : String) (fs : FS) (f : EmittedFile) : FS × List WriteEvent :=
  if testDts f.fileName = false then
    (writeFS fs (dir ++ "/" ++ f.fileName) f.code,
     [⟨dir ++ "/" ++ f.fileName, f.code, WriteKind.bundle, fmt,
       fs (dir ++ "/" ++ f.fileName)⟩])
  else if fmt == "cjs" then
    ((maybeWriteFile fs (dir ++ "/" ++ f.fileName)
        (patchSourceRoot f.fileName f.code)).1,
     if (maybeWriteFile fs (dir ++ "/" ++ f.fileName)
          (patchSourceRoot f.fileName f.code)).2 then
       [⟨dir ++ "/" ++ f.fileName, patchSourceRoot f.fileName f.code,
         WriteKind.decl, fmt, fs (dir ++ "/" ++ f.fileName)⟩]
     else [])
  else (fs, [])

/-- The full loop body for one emitted file: the branching part, then
the unconditional `file.map` write to `fileName + ".map"`. -/
def fileEvents (fmt dir : String) (fs : FS) (f : EmittedFile) : FS × List WriteEvent :=
  match f.map with
  | some m =>
    (writeFS (fileStep fmt dir fs f).1 (dir ++ "/" ++ f.fileName ++ ".map") m,
     (fileStep fmt dir fs f).2 ++
       [⟨dir ++ "/" ++ f.fileName ++ ".map", m, WriteKind.srcmap, fmt,
         (fileStep fmt dir fs f).1 (dir ++ "/" ++ f.fileName ++ ".map")⟩])
  | none => fileStep fmt dir fs f

/-- The per-output loop over the generated files, threading the
filesystem and concatenating the write events in order. -/
def processFiles (fmt dir : String) : FS → List EmittedFile → FS × List WriteEvent
  | fs, [] => (fs, [])
  | fs, f :: rest =>
    let r1 := fileEvents fmt dir fs f
    let r2 := processFiles fmt dir r1.1 rest
    (r2.1, r1.2 ++ r2.2)

/-- One `config.output` entry: `dir = path.dirname(output.file)`, then
the file loop. -/
def processOutput (fs : FS) (o : OutputSpec) : FS × List WriteEvent :=
  processFiles o.format (dirname o.file) fs o.files

/-- Embedding of `runRollup(config)`: the outer loop over
`config.output`. -/
def runRollup (fs : FS) : List OutputSpec → FS × List WriteEvent
  | [] => (fs, [])
  | o :: rest =>
    let r1 := processOutput fs o
    let r2 := runRollup r1.1 rest
    (r2.1, r1.2 ++ r2.2)

/-- The paths written by declaration-branch events of a trace. -/
def declPaths (l : List WriteEvent) : List String :=
  (l.filter (fun e => e.kind == WriteKind.decl)).map (fun e => e.path)

/-! ## The `release` command

`release(pkgName, ...args)` resolves the package, parses `--version`
and `-m` arguments, reads the current version (external manifest
read), computes the changelog (external `git log` read) — both passed
in as parameters — then, `if (!newVersion)`, computes
`bumpVersion(currentVersion, changes)` (which can throw), and finally
performs `doRelease`.  The side effects of `doRelease` are recorded as
an explicit trace; an error leaves the trace empty. -/

/-- One side effect performed by `doRelease`. -/
inductive Effect where
  | writeManifest (pkg version : String)
  | prependChangelog (pkg version : String)
  | gitAdd (pkg file : String)
  | gitCommit (pkg msg : String)
  | gitTag (pkg tag : String)
deriving DecidableEq

/-- Embedding of `doRelease(pkg, changes, newVersion)`: rewrites the
manifest's version field, prepends the release notes to CHANGELOG.md,
then runs `git add` twice, `git commit`, and `git tag`.  The notes text
itself involves the current date and is abstracted; the trace records
each effectful step. -/
def doRelease (pkg : String) (changes : Changes) (newVersion : String) : List Effect :=
  [ Effect.writeManifest pkg newVersion,
    Effect.prependChangelog pkg newVersion,
    Effect.gitAdd pkg "package.json",
    Effect.gitAdd pkg "CHANGELOG.md",
    Effect.gitCommit pkg ("Mark version " ++ newVersion),
    Effect.gitTag pkg newVersion ]

/-- The argument loop of `release`: `--version` takes the next
argument as the new version (when it is the last argument, `args[++i]`
is `undefined`, i.e. no version), `-m` appends the next argument plus
a blank line to the message (`undefined` stringifies when missing),
anything else is an error. -/
def parseReleaseArgs : List String → Option String → String →
    Except String (Option String × String)
  | [], v, m => Except.ok (v, m)
  | "--version" :: rest, v, m =>
    match rest with
    | [] => Except.ok (none, m)
    | x :: rest2 => parseReleaseArgs rest2 (some x) m
  | "-m" :: rest, v, m =>
    match rest with
    | [] => Except.ok (v, m ++ "undefined" ++ "\n\n")
    | x :: rest2 => parseReleaseArgs rest2 v (m ++ x ++ "\n\n")
  | _ :: _, _, _ => Except.error "Invalid arguments to release"

/-- Embedding of `release(pkgName, ...args)`.  `currentVersion` stands
for the manifest read `version(pkg)` and `changes` for the computed
`changelog(pkg, currentVersion, message)`.  The JavaScript truthiness
test `if (!newVersion)` treats both an absent and an empty-string
version as missing.  Returns the command's outcome together with the
trace of side effects performed. -/
def releaseCmd (registry : List String) (pkgName : String) (args : List String)
    (currentVersion : String) (changes : Changes) :
    Except String String × List Effect :=
  if !(registry.contains pkgName) then
    (Except.error ("No package " ++ pkgName ++ " known"), [])
  else
    match parseReleaseArgs args none "" with
    | Except.error e => (Except.error e, [])
    | Except.ok (newV, _msg) =>
      match (if (newV.getD "") == "" then bumpVersion currentVersion changes
             else Except.ok (newV.getD "")) with
      | Except.error e => (Except.error e, [])
      | Except.ok nv => (Except.ok nv, doRelease pkgName changes nv)

/-! ## The `build` command and CLI dispatch

`build(...args)` splits its arguments into package names (those not
starting with `-`) and the `--force` flag, then either builds all
registered packages or loops over the named ones, looking each name up
*just before* building it.  The trace records each `rebuild`
invocation as the pair (package name, force flag). -/

/-- JavaScript `a[0] != "-"` (an empty string's `a[0]` is `undefined`,
which also differs from `"-"`). -/
def argIsName (a : String) : Bool := a.toList.head? != some '-'

/-- The non-flag arguments of `build`: `args.filter(a => a[0] != "-")`. -/
def buildFilter (args : List String) : List String := args.filter argIsName

/-- The `for (let name of filter)` loop of `build`: look the name up in
the registry; unknown names throw `Unknown package <name>` at the point
they are reached, after the earlier names have already been rebuilt. -/
def buildLoop (registry : List String) (always : Bool) :
    List String → List (String × Bool) → Except String Unit × List (String × Bool)
  | [], acc => (Except.ok (), acc)
  | n :: rest, acc =>
    if registry.contains n then buildLoop registry always rest (acc ++ [(n, always)])
    else (Except.error ("Unknown package " ++ n), acc)

/-- Embedding of `build(...args)`: outcome plus the trace of `rebuild`
invocations, each tagged with the force flag it was given. -/
def buildCmd (registry : List String) (args : List String) :
    Except String Unit × List (String × Bool) :=
  let filt := buildFilter args
  let always := args.contains "--force"
  if filt.isEmpty then (Except.ok (), registry.map (fun n => (n, always)))
  else buildLoop registry always filt []

/-- The dispatch table of `start()` in the first script: command name
and declared parameter count (`cmdFn.length`). -/
def commandArity : List (String × Nat) :=
  [("packages", 0), ("build", 0), ("watch", 0), ("release", 1),
   ("release-all", 0), ("bump-deps", 1), ("run", 0), ("--help", 0),
   ("notes", 1)]

/-- The guard of `start()`: `if (!cmdFn || cmdFn.length > args.length) help(1)`. -/
def dispatchOk (cmd : String) (argc : Nat) : Bool :=
  match commandArity.find? (fun e => e.1 == cmd) with
  | none => false
  | some e => decide (e.2 ≤ argc)

/-- The dispatch of `start()`: `some cmd` when the command function is
invoked, `none` when `help(1)` prints usage and exits with status 1
before any command side effect. -/
def startDispatch (cmd : String) (argc : Nat) : Option String :=
  if dispatchOk cmd argc then some cmd else none

/-! ## The Watch Scheduler (`Watcher`)

The watcher's mutable state is its pending-work array `this.work`
(package identities, here their names, in arrival order) and the
`this.working` flag.  `trigger(pkg)` enqueues a package unless already
pending; `startWork()` is guarded by `this.working` so that only one
drain (`run()`) is in flight; `run()` repeatedly scans `this.pkgs` in
registry order, removes the first registered package found in the work
list, and awaits its rebuild before the next scan. -/

structure WatchState where
  work : List String
  working : Bool
deriving DecidableEq

/-- Embedding of `trigger(pkg)`: `if (!this.work.includes(pkg)) this.work.push(pkg)`
(the debounced `setTimeout(() => this.startWork(), 20)` is the
scheduling of `startWork`, modelled separately). -/
def trigger (s : WatchState) (p : String) : WatchState :=
  if s.work.contains p then s else { s with work := s.work ++ [p] }

/-- Embedding of `startWork()`: `if (this.working) return;` otherwise set the flag
and begin a drain.  The boolean reports whether a drain was started. -/
def startWork (s : WatchState) : WatchState × Bool :=
  if s.working then (s, false) else ({ s with working := true }, true)

/-- The body of `run()` unrolled: each iteration picks
`pkgs.find(p => work.includes(p))` — the first *registry-order*
package that is pending — splices it out of the work list, and runs
its rebuild to completion before the next iteration.  The returned
list is the sequence of rebuilds in execution order.  The fuel is the
length of the work list; since every iteration removes one element of
a work list that (as maintained by `trigger`) only holds watched
packages, the fuel never runs out on reachable states. -/
def drainAux (pkgs : List String) : Nat → List String → List String
  | 0, _ => []
  | fuel + 1, work =>
    match pkgs.find? (fun p => work.contains p) with
    | none => []
    | some p => p :: drainAux pkgs fuel (work.erase p)

/-- The rebuild sequence of `run()` from a given pending-work list. -/
def drain (pkgs work : List String) : List String :=
  drainAux pkgs work.length work

/-! ## The `watch` command (first script)

`watch` runs a baseline pass (`for` over `packages`, each `rebuild`
wrapped in `try`/`catch` that logs and continues) and then evaluates
`new Watcher(target, {esm: false})`.  The identifier `target` is
resolved against watch's lexical environment: its own locals, the
script's top-level bindings, and the Node globals. -/

/-- Top-level bindings declared by the first script. -/
def fileOneTopLevel : List String :=
  ["child", "fs", "fsp", "path", "root", "Pkg", "baseCompilerOptions",
   "tsPlugin", "packages", "packageNames", "start", "help", "error", "run",
   "listPackages", "maybeWriteFile", "runRollup", "fileTime", "rebuild",
   "Watcher", "build", "watch", "changelog", "bumpVersion", "releaseNotes",
   "setModuleVersion", "version", "doRelease", "release", "releaseAll",
   "bumpDeps", "runCmd", "notes"]

/-- Ambient Node.js globals visible to the script. -/
def nodeGlobals : List String :=
  ["require", "module", "exports", "__dirname", "__filename", "process",
   "console", "Buffer", "setTimeout", "setInterval", "Promise", "Math",
   "Date", "JSON", "Infinity", "NaN", "Object", "Array", "String", "Number",
   "Error", "RegExp"]

/-- The lexical environment in which `watch`'s body resolves names:
its local bindings (the loop variable and the catch parameter), the
script's top level and the Node globals. -/
def watchScopeNames : List String :=
  ["pkg", "e"] ++ fileOneTopLevel ++ nodeGlobals

/-- Outcome of evaluating a piece of JavaScript. -/
inductive JsOutcome where
  | normal
  | thrown (msg : String)
deriving DecidableEq

/-- The baseline pass of `watch`: every package's `rebuild` outcome is
processed in order; a failure is logged (`console.log(e)`) and the loop
continues with the remaining packages. -/
def watchBaseline : List (Except String Unit) → List String
  | [] => []
  | Except.ok _ :: rest => watchBaseline rest
  | Except.error e :: rest => e :: watchBaseline rest

/-- The `watch` command: the baseline pass, then the evaluation of
`new Watcher(target, {esm: false})` — `target` must resolve in scope,
otherwise a `ReferenceError` is thrown. -/
def watchCommand (baselineResults : List (Except String Unit)) :
    List String × JsOutcome :=
  (watchBaseline baselineResults,
   if watchScopeNames.contains "target" then JsOutcome.normal
   else JsOutcome.thrown "ReferenceError: target is not defined")

end Lz

namespace Lz

theorem fileTime_neg_iff (t : FSTimes) (p : String) :
    fileTime t p < 0 ↔ (t p).isNone = true := by
  unfold fileTime
  cases h : t p with
  | none => norm_num
  | some n =>
    simp only [Option.isNone_some, Bool.false_eq_true, iff_false, not_lt]
    exact Int.natCast_nonneg n

theorem any_le_foldr_max (c : Int) (hc : 0 ≤ c) :
    ∀ l : List Int, (∃ x ∈ l, c ≤ x) ↔ c ≤ l.foldr max (-1)
  | [] => by
    simp only [List.not_mem_nil, false_and, exists_false, List.foldr_nil, false_iff, not_le]
    omega
  | x :: xs => by
    rw [List.foldr_cons, le_max_iff, ← any_le_foldr_max c hc xs]
    constructor
    · rintro ⟨y, hy, hcy⟩
      rcases List.mem_cons.mp hy with rfl | hmem
      · exact Or.inl hcy
      · exact Or.inr ⟨y, hmem, hcy⟩
    · rintro (hcx | ⟨y, hy, hcy⟩)
      · exact ⟨x, List.mem_cons_self x xs, hcx⟩
      · exact ⟨y, List.mem_cons.mpr (Or.inr hy), hcy⟩

theorem le_newestInput_iff (t : FSTimes) (inputFiles : List String) (c : Int)
    (hc : 0 ≤ c) :
    c ≤ newestInputTime t inputFiles ↔ ∃ f ∈ inputFiles, c ≤ fileTime t f := by
  unfold newestInputTime
  rw [← any_le_foldr_max c hc]
  constructor
  · rintro ⟨x, hx, hcx⟩
    obtain ⟨f, hf, rfl⟩ := List.mem_map.mp hx
    exact ⟨f, hf, hcx⟩
  · rintro ⟨f, hf, hcf⟩
    exact ⟨fileTime t f, List.mem_map.mpr ⟨f, hf, rfl⟩, hcf⟩

theorem missing_output_iff (t : FSTimes) (cjsFile esmFile : String) (esm : Bool) :
    ((if esm then [cjsFile, esmFile] else [cjsFile]).any (fun p => (t p).isNone) = true)
      ↔ oldestOutputTime t cjsFile esmFile esm < 0 := by
  cases esm with
  | false =>
    simp only [Bool.false_eq_true, if_false, List.any_cons, List.any_nil, Bool.or_false,
      oldestOutputTime]
    exact (fileTime_neg_iff t cjsFile).symm
  | true =>
    simp only [if_true, List.any_cons, List.any_nil, Bool.or_false, Bool.or_eq_true,
      oldestOutputTime, min_lt_iff]
    rw [fileTime_neg_iff, fileTime_neg_iff]

/-- C1 (amended): `rebuild`'s staleness decision agrees with the
amended predicate — rebuild happens iff force is set, or some required
output file is missing (the esm bundle counting only when the
alternate format is requested), or the oldest required output time is
*less than or equal to* the newest input time; and when the predicate
is false, `rebuild` is a no-op performing no bundling and no logging. -/
theorem c1_rebuild_staleness (t : FSTimes) (cjsFile esmFile : String)
    (inputFiles : List String) (opts : BuildOptions) :
    rebuildFires t cjsFile esmFile inputFiles opts
        = amendedRebuildRequired t cjsFile esmFile inputFiles opts
    ∧ rebuildActions t cjsFile esmFile inputFiles opts
        = (if amendedRebuildRequired t cjsFile esmFile inputFiles opts then
            ["log Building", "bundle", "log Done"]
          else []) := by
  have hmain : rebuildFires t cjsFile esmFile inputFiles opts
      = amendedRebuildRequired t cjsFile esmFile inputFiles opts := by
    unfold rebuildFires amendedRebuildRequired
    cases ha : opts.always with
    | true => simp
    | false =>
      simp only [Bool.false_or]
      set time := oldestOutputTime t cjsFile esmFile opts.esm with htime
      rcases lt_or_le time 0 with hneg | hpos
      · have hmiss : ((if opts.esm then [cjsFile, esmFile] else [cjsFile]).any
            (fun p => (t p).isNone)) = true :=
          (missing_output_iff t cjsFile esmFile opts.esm).mpr hneg
        rw [hmiss]
        have h0 : decide (0 ≤ time) = false := decide_eq_false (not_le.mpr hneg)
        rw [h0]
        simp
      · have hmiss : ((if opts.esm then [cjsFile, esmFile] else [cjsFile]).any
            (fun p => (t p).isNone)) = false := by
          rw [Bool.eq_false_iff]
          intro hcon
          exact absurd ((missing_output_iff t cjsFile esmFile opts.esm).mp hcon)
            (not_lt.mpr hpos)
        rw [hmiss]
        have hany : (inputFiles.any (fun f => decide (time ≤ fileTime t f)))
            = decide (time ≤ newestInputTime t inputFiles) := by
          cases hA : (inputFiles.any (fun f => decide (time ≤ fileTime t f))) with
          | true =>
            obtain ⟨f, hf2, hdec⟩ := List.any_eq_true.mp hA
            exact (decide_eq_true ((le_newestInput_iff t inputFiles time hpos).mpr
              ⟨f, hf2, of_decide_eq_true hdec⟩)).symm
          | false =>
            symm
            rw [decide_eq_false_iff_not]
            intro hle
            obtain ⟨f, hf2, hcf⟩ := (le_newestInput_iff t inputFiles time hpos).mp hle
            have hA2 : inputFiles.any (fun f => decide (time ≤ fileTime t f)) = true :=
              List.any_eq_true.mpr ⟨f, hf2, decide_eq_true hcf⟩
            rw [hA] at hA2
            cases hA2
        rw [hany]
        have h0 : decide (0 ≤ time) = true := decide_eq_true hpos
        rw [h0]
        simp
  exact ⟨hmain, by rw [rebuildActions, hmain]⟩

/-- C1 counterexample to the claim as stated: with the cjs bundle and
the sole input file carrying the same modification time, the code does
rebuild (`fileTime(file) >= time` holds at equality) while the claim's
strict `oldest_output_time < newest_input_time` condition says the
rebuild must be a no-op. -/
theorem c1_counterexample :
    rebuildFires tEqual "dist/index.js" "dist/index.es.js" ["src/index.ts"]
        ⟨false, false⟩ = true
    ∧ specRebuildRequired tEqual "dist/index.js" "dist/index.es.js" ["src/index.ts"]
        ⟨false, false⟩ = false := by
  constructor
  · rfl
  · rfl

/-- C5: `bumpVersion` satisfies the spec's three scenarios, in both
scripts' variants: a feature entry on "1.2.3" gives "1.3.0", a fix
entry on "1.2.3" gives "1.2.4", and a breaking entry on "0.4.0" does
not force a major bump (the `major != "0"` guard) but falls through to
the minor bump, giving "0.5.0". -/
theorem c5_bump_version_scenarios :
    bumpVersion "1.2.3" ⟨[], ["x"], []⟩ = Except.ok "1.3.0"
    ∧ bumpVersion "1.2.3" ⟨["y"], [], []⟩ = Except.ok "1.2.4"
    ∧ bumpVersion "0.4.0" ⟨[], [], ["z"]⟩ = Except.ok "0.5.0"
    ∧ bumpVersionV2 "1.2.3" ⟨[], ["x"], []⟩ = Except.ok "1.3.0"
    ∧ bumpVersionV2 "1.2.3" ⟨["y"], [], []⟩ = Except.ok "1.2.4"
    ∧ bumpVersionV2 "0.4.0" ⟨[], [], ["z"]⟩ = Except.ok "0.5.0" := by
  refine ⟨rfl, rfl, rfl, rfl, rfl, rfl⟩

/-- C2: the code violates the de-duplication invariant.  Because the
`includes` membership test compares the import-name string against the
stored `Pkg` objects, it never succeeds, so a package importing the
registered sibling "common" twice gets `common`'s `Pkg` object pushed
twice into `dependencies`; moreover the membership test is dead code on
every state the loop can reach (the array only ever holds `Pkg`
objects). -/
theorem c2_dependencies_duplicated :
    dependenciesScan (fun n => registryV1.contains n) ["common", "common"]
        = [JsValue.pkgRef "common", JsValue.pkgRef "common"]
    ∧ ¬ (dependenciesScan (fun n => registryV1.contains n)
          ["common", "common"]).Nodup
    ∧ (∀ deps : List JsValue, (∀ v ∈ deps, ∃ n, v = JsValue.pkgRef n) →
        ∀ nm : String, deps.contains (JsValue.str nm) = false) := by
  refine ⟨by decide, by decide, ?_⟩
  intro deps hdeps nm
  rw [List.contains_eq_any_beq, List.any_eq_false]
  intro v hv
  obtain ⟨n, rfl⟩ := hdeps v hv
  simp

/-- C7: the `watch` command of the first script crashes instead of
entering the watch loop.  After the baseline pass (which does tolerate
individual failures, logging each and continuing), the construction
`new Watcher(target, {esm: false})` references the identifier `target`,
which is bound nowhere in scope — `watch` therefore throws a
`ReferenceError` and never registers a filesystem watch. -/
theorem c7_watch_reference_error (baselineResults : List (Except String Unit)) :
    (watchCommand baselineResults).2
        = JsOutcome.thrown "ReferenceError: target is not defined"
    ∧ (watchCommand baselineResults).2 ≠ JsOutcome.normal := by
  constructor
  · rfl
  · intro h
    simp [watchCommand] at h
    revert h
    decide

theorem bumpVersion_empty (v : String) :
    bumpVersion v ⟨[], [], []⟩ = Except.error "No new release notes!" := rfl

/-- C6: `release` without an explicit `--version`, on a changelog with
no breaking, feature or fix entries, fails with "No new release
notes!" and performs no side effect: the manifest is not rewritten,
the changelog is not prepended, and no git command is issued (the
effect trace is empty). -/
theorem c6_release_no_notes (registry : List String) (pkgName : String)
    (args : List String) (m : String) (currentVersion : String)
    (hr : registry.contains pkgName = true)
    (hp : parseReleaseArgs args none "" = Except.ok (none, m)) :
    releaseCmd registry pkgName args currentVersion ⟨[], [], []⟩
      = (Except.error "No new release notes!", []) := by
  unfold releaseCmd
  rw [hr, hp]
  simp only [Bool.not_true, Bool.false_eq_true, if_false, Option.getD_none]
  rw [bumpVersion_empty]
  rfl

theorem c6_release_no_notes_witness :
    registryV1.contains "common" = true
    ∧ parseReleaseArgs ["-m", "note"] none "" = Except.ok (none, "note\n\n")
    ∧ releaseCmd registryV1 "common" ["-m", "note"] "1.2.3" ⟨[], [], []⟩
        = (Except.error "No new release notes!", []) :=
  ⟨by decide, by rfl,
   c6_release_no_notes registryV1 "common" ["-m", "note"] "note\n\n" "1.2.3"
     (by decide) (by rfl)⟩

/-- C9 counterexample: supplying the explicit (but empty) version
`--version ""` still runs the bump computation — `if (!newVersion)`
treats the empty string as absent — so `release` raises "No new
release notes!" even though an explicit `--version` argument was
given, contradicting the claim as stated. -/
theorem c9_counterexample :
    releaseCmd registryV1 "common" ["--version", ""] "1.0.0" ⟨[], [], []⟩
      = (Except.error "No new release notes!", []) := by rfl

/-- C9 (amended): with an explicit *non-empty* `--version V`, the
version-bump computation is skipped entirely, so "No new release
notes!" can never be raised and the release (manifest rewrite,
changelog prepend, git add/commit/tag) proceeds for every `changes`
value, including one with all three lists empty. -/
theorem c9_explicit_version_skips_bump (registry : List String) (pkgName : String)
    (args : List String) (V m : String) (currentVersion : String) (changes : Changes)
    (hr : registry.contains pkgName = true)
    (hp : parseReleaseArgs args none "" = Except.ok (some V, m))
    (hV : V ≠ "") :
    releaseCmd registry pkgName args currentVersion changes
      = (Except.ok V, doRelease pkgName changes V) := by
  unfold releaseCmd
  rw [hr, hp]
  simp only [Bool.not_true, Bool.false_eq_true, if_false, Option.getD_some]
  rw [if_neg (by simpa using hV)]

theorem c9_explicit_version_skips_bump_witness :
    registryV1.contains "common" = true
    ∧ parseReleaseArgs ["--version", "2.0.0"] none ""
        = Except.ok (some "2.0.0", "")
    ∧ ("2.0.0" : String) ≠ ""
    ∧ releaseCmd registryV1 "common" ["--version", "2.0.0"] "1.0.0" ⟨[], [], []⟩
        = (Except.ok "2.0.0", doRelease "common" ⟨[], [], []⟩ "2.0.0") :=
  ⟨by decide, by rfl, by decide,
   c9_explicit_version_skips_bump registryV1 "common" ["--version", "2.0.0"]
     "2.0.0" "" "1.0.0" ⟨[], [], []⟩ (by decide) (by rfl) (by decide)⟩

/-- C8 counterexample: `build common nonexistent --force` rebuilds
`common` (with the force flag, so the bundler does run and output
files are written) *before* failing on the unknown name, contradicting
the claim that an argument list containing an unknown package name
performs no build before failing. -/
theorem c8_counterexample :
    "nonexistent" ∈ buildFilter ["common", "nonexistent", "--force"]
    ∧ registryV1.contains "nonexistent" = false
    ∧ buildCmd registryV1 ["common", "nonexistent", "--force"]
        = (Except.error "Unknown package nonexistent", [("common", true)]) := by
  refine ⟨by decide, by decide, by rfl⟩

theorem buildLoop_spec (registry : List String) (always : Bool) :
    ∀ (names : List String) (acc : List (String × Bool)) (u : String)
      (us : List String),
      names.dropWhile (fun n => registry.contains n) = u :: us →
      buildLoop registry always names acc
        = (Except.error ("Unknown package " ++ u),
           acc ++ (names.takeWhile (fun n => registry.contains n)).map
             (fun n => (n, always)))
  | [], acc, u, us, h => by simp [List.dropWhile] at h
  | n :: rest, acc, u, us, h => by
    cases hn : registry.contains n with
    | true =>
      rw [List.dropWhile_cons, if_pos hn] at h
      rw [List.takeWhile_cons, if_pos hn]
      unfold buildLoop
      rw [if_pos hn]
      rw [buildLoop_spec registry always rest (acc ++ [(n, always)]) u us h]
      simp
    | false =>
      rw [List.dropWhile_cons, if_neg (by simp only [hn]; decide)] at h
      rw [List.takeWhile_cons, if_neg (by simp only [hn]; decide)]
      unfold buildLoop
      rw [if_neg (by simp only [hn]; decide)]
      injection h with h1 h2
      subst h1
      simp

/-- C8 (amended): an unrecognized command, and equally a malformed
invocation of a recognized command with fewer arguments than its
declared parameter count (the `cmdFn.length > args.length` branch of
`start`'s guard), make `start` print usage and exit non-zero without
invoking any command (no side effects); for `build names...`, names
are validated lazily, left to right: every package named before the
first unknown name is rebuilt first (each with the given force flag),
and on reaching the first unknown name the command fails with
`Unknown package <name>` without building it or any later name. -/
theorem c8_config_errors (registry : List String) (args : List String)
    (u : String) (us : List String) (cmd : String) (argc : Nat)
    (cmd2 : String) (argc2 : Nat) (entry : String × Nat)
    (hu : (buildFilter args).dropWhile (fun n => registry.contains n) = u :: us)
    (hc : commandArity.find? (fun e => e.1 == cmd) = none)
    (hm1 : commandArity.find? (fun e => e.1 == cmd2) = some entry)
    (hm2 : argc2 < entry.2) :
    buildCmd registry args
      = (Except.error ("Unknown package " ++ u),
         ((buildFilter args).takeWhile (fun n => registry.contains n)).map
           (fun n => (n, args.contains "--force")))
    ∧ startDispatch cmd argc = none
    ∧ startDispatch cmd2 argc2 = none := by
  refine ⟨?_, ?_, ?_⟩
  · have hne : (buildFilter args).isEmpty = false := by
      cases hbf : buildFilter args with
      | nil => rw [hbf] at hu; simp [List.dropWhile] at hu
      | cons a as => rfl
    simp only [buildCmd]
    rw [hne]
    simp only [Bool.false_eq_true, if_false]
    rw [buildLoop_spec registry (args.contains "--force") (buildFilter args) [] u us hu]
    simp
  · unfold startDispatch dispatchOk
    rw [hc]
    simp
  · unfold startDispatch dispatchOk
    rw [hm1]
    show (if decide (entry.2 ≤ argc2) = true then some cmd2 else none) = none
    rw [decide_eq_false (not_le.mpr hm2)]
    rfl

theorem contains_of_mem (l : List String) (a : String) (h : a ∈ l) :
    l.contains a = true :=
  List.elem_iff.mpr h

theorem mem_of_contains (l : List String) (a : String) (h : l.contains a = true) :
    a ∈ l :=
  List.elem_iff.mp h

theorem drainAux_succ (pkgs : List String) (n : Nat) (work : List String) :
    drainAux pkgs (n + 1) work
      = match pkgs.find? (fun p => work.contains p) with
        | none => []
        | some p => p :: drainAux pkgs n (work.erase p) := rfl

theorem drainAux_skip (x : String) (rest : List String) :
    ∀ (fuel : Nat) (work : List String), work.contains x = false →
      drainAux (x :: rest) fuel work = drainAux rest fuel work := by
  intro fuel
  induction fuel with
  | zero => intro work _; rfl
  | succ n ih =>
    intro work hx
    rw [drainAux_succ, drainAux_succ]
    rw [List.find?_cons_of_neg rest (by rw [hx]; exact Bool.false_ne_true)]
    cases hf : rest.find? (fun p => work.contains p) with
    | none => rfl
    | some q =>
      show q :: drainAux (x :: rest) n (work.erase q)
          = q :: drainAux rest n (work.erase q)
      have hqx : (work.erase q).contains x = false := by
        cases hcx : (work.erase q).contains x with
        | false => rfl
        | true =>
          have hxw : x ∈ work :=
            List.mem_of_mem_erase (mem_of_contains _ x hcx)
          rw [contains_of_mem work x hxw] at hx
          exact absurd hx (by decide)
      rw [ih (work.erase q) hqx]

theorem drainAux_filter :
    ∀ (pkgs : List String), pkgs.Nodup →
      ∀ (work : List String) (fuel : Nat), work.Nodup →
        (∀ q ∈ work, q ∈ pkgs) → work.length ≤ fuel →
        drainAux pkgs fuel work = pkgs.filter (fun q => work.contains q) := by
  intro pkgs
  induction pkgs with
  | nil =>
    intro _ work fuel _ _ _
    cases fuel with
    | zero => rfl
    | succ n => rfl
  | cons x rest ih =>
    intro hnd work fuel hwnd hsub hlen
    have hxrest : x ∉ rest := (List.nodup_cons.mp hnd).1
    have hndrest : rest.Nodup := (List.nodup_cons.mp hnd).2
    cases hx : work.contains x with
    | false =>
      rw [drainAux_skip x rest fuel work hx]
      have hsub2 : ∀ q ∈ work, q ∈ rest := by
        intro q hq
        rcases List.mem_cons.mp (hsub q hq) with h1 | h2
        · subst h1
          rw [contains_of_mem work q hq] at hx
          exact absurd hx (by decide)
        · exact h2
      rw [ih hndrest work fuel hwnd hsub2 hlen]
      rw [List.filter_cons_of_neg (by rw [hx]; exact Bool.false_ne_true)]
    | true =>
      have hxw : x ∈ work := mem_of_contains work x hx
      cases fuel with
      | zero =>
        exfalso
        have hpos : 0 < work.length := List.length_pos.mpr (List.ne_nil_of_mem hxw)
        omega
      | succ n =>
        rw [drainAux_succ]
        rw [List.find?_cons_of_pos rest hx]
        show x :: drainAux (x :: rest) n (work.erase x)
            = (x :: rest).filter (fun q => work.contains q)
        have hex : (work.erase x).contains x = false := by
          cases hc : (work.erase x).contains x with
          | false => rfl
          | true => exact absurd (mem_of_contains _ x hc) (hwnd.not_mem_erase)
        rw [drainAux_skip x rest n (work.erase x) hex]
        have hsub2 : ∀ q ∈ work.erase x, q ∈ rest := by
          intro q hq
          have hqw : q ∈ work := List.mem_of_mem_erase hq
          have hqx : q ≠ x := by
            rintro rfl
            exact hwnd.not_mem_erase hq
          rcases List.mem_cons.mp (hsub q hqw) with h1 | h2
          · exact absurd h1 hqx
          · exact h2
        have hlen2 : (work.erase x).length ≤ n := by
          rw [List.length_erase_of_mem hxw]
          omega
        rw [ih hndrest (work.erase x) n (hwnd.erase x) hsub2 hlen2]
        have hcong : rest.filter (fun q => (work.erase x).contains q)
            = rest.filter (fun q => work.contains q) := by
          apply List.filter_congr
          intro q hq
          have hqx : q ≠ x := fun h => hxrest (h ▸ hq)
          cases hc : work.contains q with
          | true =>
            exact contains_of_mem _ q
              ((List.mem_erase_of_ne hqx).mpr (mem_of_contains work q hc))
          | false =>
            cases hce : (work.erase x).contains q with
            | false => rfl
            | true =>
              have hqw : q ∈ work := List.mem_of_mem_erase (mem_of_contains _ q hce)
              rw [contains_of_mem work q hqw] at hc
              exact absurd hc (by decide)
        rw [hcong]
        rw [List.filter_cons_of_pos hx]

theorem drain_eq_filter (pkgs work : List String) (hnp : pkgs.Nodup)
    (hwnd : work.Nodup) (hsub : ∀ q ∈ work, q ∈ pkgs) :
    drain pkgs work = pkgs.filter (fun q => work.contains q) :=
  drainAux_filter pkgs hnp work work.length hwnd hsub (le_refl _)

theorem pair_sublist_filter (P : String → Bool) (A B : String) :
    ∀ l : List String, l.Nodup → P A = true → P B = true → B ∈ l →
      l.indexOf A < l.indexOf B → [A, B].Sublist (l.filter P)
  | [], _, _, _, hB, _ => absurd hB (List.not_mem_nil B)
  | x :: l, hnd, hPA, hPB, hB, hord => by
    have hndl : l.Nodup := (List.nodup_cons.mp hnd).2
    by_cases hxA : x = A
    · subst hxA
      have hAB : x ≠ B := by
        rintro rfl
        exact lt_irrefl _ hord
      have hBl : B ∈ l := by
        rcases List.mem_cons.mp hB with h1 | h2
        · exact absurd h1.symm hAB
        · exact h2
      rw [List.filter_cons_of_pos hPA]
      exact List.Sublist.cons₂ x
        (List.singleton_sublist.mpr (List.mem_filter.mpr ⟨hBl, hPB⟩))
    · have hxB : x ≠ B := by
        rintro rfl
        rw [List.indexOf_cons_self] at hord
        omega
      have hBl : B ∈ l := by
        rcases List.mem_cons.mp hB with h1 | h2
        · exact absurd h1.symm hxB
        · exact h2
      have hord2 : l.indexOf A < l.indexOf B := by
        rw [List.indexOf_cons_ne l hxA, List.indexOf_cons_ne l hxB] at hord
        omega
      have IH := pair_sublist_filter P A B l hndl hPA hPB hBl hord2
      cases hPx : P x with
      | true =>
        rw [List.filter_cons_of_pos hPx]
        exact List.Sublist.cons x IH
      | false =>
        rw [List.filter_cons_of_neg (by rw [hPx]; exact Bool.false_ne_true)]
        exact IH

/-- C3: the Watch Scheduler's drain loop is serial and follows
registry order.  The drain sequence from a pending-work list equals
the registry filtered to the pending packages — so the pick is always
the first pending package in registry order, not arrival order — and
in particular when A precedes B in the registry and both are pending,
A's rebuild occurs strictly before B's in the (serialized, one at a
time, each awaited to completion) rebuild sequence.  Moreover
`startWork` on a state whose `working` flag is set does nothing and
starts no second drain, and `trigger` only enqueues: it never touches
the `working` flag and keeps the pending set duplicate-free. -/
theorem c3_watch_drain (pkgs work : List String) (A B : String)
    (s : WatchState) (p : String)
    (hnp : pkgs.Nodup) (hwnd : work.Nodup) (hsub : ∀ q ∈ work, q ∈ pkgs)
    (hA : A ∈ work) (hB : B ∈ work) (hord : pkgs.indexOf A < pkgs.indexOf B)
    (hsw : s.work.Nodup) :
    drain pkgs work = pkgs.filter (fun q => work.contains q)
    ∧ [A, B].Sublist (drain pkgs work)
    ∧ startWork { work := s.work, working := true }
        = ({ work := s.work, working := true }, false)
    ∧ (trigger s p).working = s.working
    ∧ (trigger s p).work.Nodup := by
  have hfil := drain_eq_filter pkgs work hnp hwnd hsub
  refine ⟨hfil, ?_, rfl, ?_, ?_⟩
  · rw [hfil]
    exact pair_sublist_filter (fun q => work.contains q) A B pkgs hnp
      (contains_of_mem work A hA) (contains_of_mem work B hB) (hsub B hB) hord
  · unfold trigger
    cases h : s.work.contains p with
    | true => rfl
    | false => rfl
  · unfold trigger
    cases h : s.work.contains p with
    | true => simpa using hsw
    | false =>
      have hp : p ∉ s.work := by
        intro hc
        rw [contains_of_mem s.work p hc] at h
        exact absurd h (by decide)
      simp only [Bool.false_eq_true, if_false]
      refine List.Nodup.append hsw (List.nodup_singleton p) ?_
      intro a ha hb
      rw [List.mem_singleton.mp hb] at ha
      exact hp ha

theorem c3_watch_drain_witness :
    drain ["common", "lr", "generator"] ["lr", "common"]
        = (["common", "lr", "generator"].filter
            (fun q => (["lr", "common"] : List String).contains q))
    ∧ [("common" : String), "lr"].Sublist
        (drain ["common", "lr", "generator"] ["lr", "common"])
    ∧ startWork { work := ["x"], working := true }
        = ({ work := ["x"], working := true }, false)
    ∧ (trigger { work := ["x"], working := true } "y").working
        = ({ work := ["x"], working := true } : WatchState).working
    ∧ (trigger { work := ["x"], working := true } "y").work.Nodup :=
  c3_watch_drain ["common", "lr", "generator"] ["lr", "common"] "common" "lr"
    { work := ["x"], working := true } "y" (by decide) (by decide) (by decide)
    (by decide) (by decide) (by decide) (by decide)

theorem string_append_left_cancel (s a b : String) (h : s ++ a = s ++ b) : a = b := by
  have h2 := congrArg String.data h
  simp only [String.data_append] at h2
  have h3 := List.append_cancel_left h2
  cases a
  cases b
  exact congrArg String.mk h3

theorem writeFS_other (fs : FS) (p c q : String) (h : q ≠ p) :
    writeFS fs p c q = fs q := by
  unfold writeFS
  rw [if_neg h]

theorem maybeWriteFile_wrote (fs : FS) (p c : String)
    (h : (maybeWriteFile fs p c).2 = true) : fs p ≠ some c := by
  intro hc
  unfold maybeWriteFile at h
  rw [hc] at h
  simp at h

theorem maybeWriteFile_skip (fs : FS) (p c : String)
    (h : (maybeWriteFile fs p c).2 = false) : (maybeWriteFile fs p c).1 = fs := by
  unfold maybeWriteFile at h ⊢
  cases hfp : fs p with
  | none =>
    rw [hfp] at h
    exact Bool.noConfusion h
  | some old =>
    rw [hfp] at h
    have h2 : (if (old.length != c.length || old != c) = true
        then (writeFS fs p c, true) else (fs, false)).2 = false := h
    show (if (old.length != c.length || old != c) = true
        then (writeFS fs p c, true) else (fs, false)).1 = fs
    cases hcond : (old.length != c.length || old != c) with
    | true =>
      rw [hcond] at h2
      exact Bool.noConfusion h2
    | false => rfl

theorem maybeWriteFile_other (fs : FS) (p c q : String) (h : q ≠ p) :
    (maybeWriteFile fs p c).1 q = fs q := by
  unfold maybeWriteFile
  cases hfp : fs p with
  | none => exact writeFS_other fs p c q h
  | some old =>
    show (if (old.length != c.length || old != c) = true
        then (writeFS fs p c, true) else (fs, false)).1 q = fs q
    cases hcond : (old.length != c.length || old != c) with
    | true => exact writeFS_other fs p c q h
    | false => rfl

theorem fileStep_sound (fmt dir : String) (fs : FS) (f : EmittedFile) :
    ∀ e ∈ (fileStep fmt dir fs f).2,
      e.kind = WriteKind.decl → e.fmt = "cjs" ∧ e.prior ≠ some e.content := by
  intro e he hk
  unfold fileStep at he
  by_cases hd : testDts f.fileName = false
  · rw [if_pos hd] at he
    rw [List.mem_singleton.mp he] at hk
    exact WriteKind.noConfusion hk
  · rw [if_neg hd] at he
    by_cases hf : (fmt == "cjs") = true
    · rw [if_pos hf] at he
      cases hr : (maybeWriteFile fs (dir ++ "/" ++ f.fileName)
          (patchSourceRoot f.fileName f.code)).2 with
      | true =>
        rw [hr, if_pos rfl] at he
        rw [List.mem_singleton.mp he]
        exact ⟨eq_of_beq hf, maybeWriteFile_wrote fs _ _ hr⟩
      | false =>
        rw [hr] at he
        simp at he
    · rw [if_neg hf] at he
      exact absurd he (List.not_mem_nil e)

theorem fileEvents_sound (fmt dir : String) (fs : FS) (f : EmittedFile) :
    ∀ e ∈ (fileEvents fmt dir fs f).2,
      e.kind = WriteKind.decl → e.fmt = "cjs" ∧ e.prior ≠ some e.content := by
  intro e he hk
  unfold fileEvents at he
  cases hm : f.map with
  | none =>
    rw [hm] at he
    exact fileStep_sound fmt dir fs f e he hk
  | some m =>
    rw [hm] at he
    rcases List.mem_append.mp he with h1 | h2
    · exact fileStep_sound fmt dir fs f e h1 hk
    · rw [List.mem_singleton.mp h2] at hk
      exact WriteKind.noConfusion hk

theorem declPaths_append (l₁ l₂ : List WriteEvent) :
    declPaths (l₁ ++ l₂) = declPaths l₁ ++ declPaths l₂ := by
  unfold declPaths
  rw [List.filter_append, List.map_append]

theorem declPaths_srcmap_singleton (e : WriteEvent) (h : e.kind = WriteKind.srcmap) :
    declPaths [e] = [] := by
  unfold declPaths
  rw [List.filter_cons_of_neg (by rw [h]; decide)]
  rfl

theorem fileStep_declPaths (fmt dir : String) (fs : FS) (f : EmittedFile) :
    declPaths (fileStep fmt dir fs f).2 = []
    ∨ declPaths (fileStep fmt dir fs f).2 = [dir ++ "/" ++ f.fileName] := by
  unfold fileStep
  by_cases hd : testDts f.fileName = false
  · rw [if_pos hd]
    left
    rfl
  · rw [if_neg hd]
    by_cases hf : (fmt == "cjs") = true
    · rw [if_pos hf]
      cases hr : (maybeWriteFile fs (dir ++ "/" ++ f.fileName)
          (patchSourceRoot f.fileName f.code)).2 with
      | true =>
        right
        rw [if_pos rfl]
        rfl
      | false =>
        left
        rfl
    · rw [if_neg hf]
      left
      rfl

theorem fileStep_declPaths_noncjs (fmt dir : String) (fs : FS) (f : EmittedFile)
    (h : ¬ fmt = "cjs") : declPaths (fileStep fmt dir fs f).2 = [] := by
  unfold fileStep
  by_cases hd : testDts f.fileName = false
  · rw [if_pos hd]
    rfl
  · rw [if_neg hd, if_neg (fun hc => h (eq_of_beq hc))]
    rfl

theorem fileEvents_declPaths (fmt dir : String) (fs : FS) (f : EmittedFile) :
    declPaths (fileEvents fmt dir fs f).2 = declPaths (fileStep fmt dir fs f).2 := by
  unfold fileEvents
  cases hm : f.map with
  | none => rfl
  | some m =>
    rw [declPaths_append, declPaths_srcmap_singleton _ rfl, List.append_nil]

theorem processFiles_cons (fmt dir : String) (fs : FS) (f : EmittedFile)
    (rest : List EmittedFile) :
    processFiles fmt dir fs (f :: rest)
      = ((processFiles fmt dir (fileEvents fmt dir fs f).1 rest).1,
         (fileEvents fmt dir fs f).2
           ++ (processFiles fmt dir (fileEvents fmt dir fs f).1 rest).2) := rfl

theorem processFiles_sound (fmt dir : String) :
    ∀ (files : List EmittedFile) (fs : FS) (e : WriteEvent),
      e ∈ (processFiles fmt dir fs files).2 →
      e.kind = WriteKind.decl → e.fmt = "cjs" ∧ e.prior ≠ some e.content
  | [], _, e, he, _ => absurd he (List.not_mem_nil e)
  | f :: rest, fs, e, he, hk => by
    rw [processFiles_cons] at he
    rcases List.mem_append.mp he with h1 | h2
    · exact fileEvents_sound fmt dir fs f e h1 hk
    · exact processFiles_sound fmt dir rest (fileEvents fmt dir fs f).1 e h2 hk

theorem runRollup_cons (fs : FS) (o : OutputSpec) (rest : List OutputSpec) :
    runRollup fs (o :: rest)
      = ((runRollup (processOutput fs o).1 rest).1,
         (processOutput fs o).2 ++ (runRollup (processOutput fs o).1 rest).2) := rfl

theorem runRollup_sound :
    ∀ (outputs : List OutputSpec) (fs : FS) (e : WriteEvent),
      e ∈ (runRollup fs outputs).2 → e.kind = WriteKind.decl →
      e.fmt = "cjs" ∧ e.prior ≠ some e.content
  | [], _, e, he, _ => absurd he (List.not_mem_nil e)
  | o :: rest, fs, e, he, hk => by
    rw [runRollup_cons] at he
    rcases List.mem_append.mp he with h1 | h2
    · exact processFiles_sound o.format (dirname o.file) o.files fs e h1 hk
    · exact runRollup_sound rest (processOutput fs o).1 e h2 hk

theorem processFiles_declPaths (fmt dir : String) :
    ∀ (files : List EmittedFile) (fs : FS),
      (declPaths (processFiles fmt dir fs files).2).Sublist
        (files.map (fun f => dir ++ "/" ++ f.fileName))
  | [], _ => List.nil_sublist _
  | f :: rest, fs => by
    have hsplit : declPaths (processFiles fmt dir fs (f :: rest)).2
        = declPaths (fileEvents fmt dir fs f).2
          ++ declPaths (processFiles fmt dir (fileEvents fmt dir fs f).1 rest).2 := by
      rw [processFiles_cons]
      exact declPaths_append _ _
    rw [hsplit]
    have h1 : (declPaths (fileEvents fmt dir fs f).2).Sublist
        [dir ++ "/" ++ f.fileName] := by
      rw [fileEvents_declPaths]
      rcases fileStep_declPaths fmt dir fs f with h | h
      · rw [h]
        exact List.nil_sublist _
      · rw [h]
    have h2 := processFiles_declPaths fmt dir rest (fileEvents fmt dir fs f).1
    exact List.Sublist.append h1 h2

theorem processFiles_declPaths_noncjs (fmt dir : String) (h : ¬ fmt = "cjs") :
    ∀ (files : List EmittedFile) (fs : FS),
      declPaths (processFiles fmt dir fs files).2 = []
  | [], _ => rfl
  | f :: rest, fs => by
    have hsplit : declPaths (processFiles fmt dir fs (f :: rest)).2
        = declPaths (fileEvents fmt dir fs f).2
          ++ declPaths (processFiles fmt dir (fileEvents fmt dir fs f).1 rest).2 := by
      rw [processFiles_cons]
      exact declPaths_append _ _
    rw [hsplit, fileEvents_declPaths, fileStep_declPaths_noncjs fmt dir fs f h,
      processFiles_declPaths_noncjs fmt dir h rest (fileEvents fmt dir fs f).1]
    rfl

theorem runRollup_declPaths_split (fs : FS) (o : OutputSpec) (rest : List OutputSpec) :
    declPaths (runRollup fs (o :: rest)).2
      = declPaths (processOutput fs o).2
        ++ declPaths (runRollup (processOutput fs o).1 rest).2 := by
  rw [runRollup_cons]
  exact declPaths_append _ _

theorem runRollup_declPaths_nil :
    ∀ (outputs : List OutputSpec) (fs : FS),
      (∀ o ∈ outputs, ¬ o.format = "cjs") →
      declPaths (runRollup fs outputs).2 = []
  | [], _, _ => rfl
  | o :: rest, fs, h => by
    rw [runRollup_declPaths_split]
    rw [show declPaths (processOutput fs o).2 = [] from
      processFiles_declPaths_noncjs o.format (dirname o.file)
        (h o (List.mem_cons_self o rest)) o.files fs]
    rw [runRollup_declPaths_nil rest (processOutput fs o).1
      (fun o' ho' => h o' (List.mem_cons_of_mem o ho'))]
    rfl

theorem runRollup_declPaths_nodup :
    ∀ (outputs : List OutputSpec) (fs : FS),
      outputs.countP (fun o => o.format == "cjs") ≤ 1 →
      (∀ o ∈ outputs, o.format = "cjs" →
        (o.files.map (fun f => f.fileName)).Nodup) →
      (declPaths (runRollup fs outputs).2).Nodup
  | [], _, _, _ => List.nodup_nil
  | o :: rest, fs, hcount, hnd => by
    rw [runRollup_declPaths_split]
    by_cases ho : o.format = "cjs"
    · have hc1 : (o.format == "cjs") = true := beq_iff_eq.mpr ho
      have hrest0 : rest.countP (fun o => o.format == "cjs") = 0 := by
        rw [List.countP_cons_of_pos (fun o => o.format == "cjs") rest hc1] at hcount
        omega
      have hrestnil : declPaths (runRollup (processOutput fs o).1 rest).2 = [] :=
        runRollup_declPaths_nil rest _ (fun o' ho' hco' =>
          (List.countP_eq_zero.mp hrest0 o' ho') (beq_iff_eq.mpr hco'))
      rw [hrestnil, List.append_nil]
      have hsub : (declPaths (processOutput fs o).2).Sublist
          (o.files.map (fun f => dirname o.file ++ "/" ++ f.fileName)) :=
        processFiles_declPaths o.format (dirname o.file) o.files fs
      refine List.Sublist.nodup hsub ?_
      have h1 : (o.files.map (fun f => f.fileName)).Nodup :=
        hnd o (List.mem_cons_self o rest) ho
      have h2 : o.files.map (fun f => dirname o.file ++ "/" ++ f.fileName)
          = (o.files.map (fun f => f.fileName)).map
              (fun n => dirname o.file ++ "/" ++ n) := by
        rw [List.map_map]
        rfl
      rw [h2]
      exact h1.map (fun a b hab =>
        string_append_left_cancel (dirname o.file ++ "/") a b hab)
    · have hponil : declPaths (processOutput fs o).2 = [] :=
        processFiles_declPaths_noncjs o.format (dirname o.file) ho o.files fs
      rw [hponil, List.nil_append]
      have hc1 : ¬ ((o.format == "cjs") = true) := fun hc => ho (eq_of_beq hc)
      refine runRollup_declPaths_nodup rest (processOutput fs o).1 ?_
        (fun o' ho' hco' => hnd o' (List.mem_cons_of_mem o ho') hco')
      rw [List.countP_cons_of_neg (fun o => o.format == "cjs") rest hc1] at hcount
      exact hcount

theorem fileStep_frame (fmt dir : String) (fs : FS) (f : EmittedFile) (P : String)
    (h : ∀ e ∈ (fileStep fmt dir fs f).2, e.path ≠ P) :
    (fileStep fmt dir fs f).1 P = fs P := by
  unfold fileStep at h ⊢
  by_cases hd : testDts f.fileName = false
  · rw [if_pos hd] at h ⊢
    have hne := h _ (List.mem_singleton_self _)
    exact writeFS_other fs (dir ++ "/" ++ f.fileName) f.code P (Ne.symm hne)
  · rw [if_neg hd] at h ⊢
    by_cases hf : (fmt == "cjs") = true
    · rw [if_pos hf] at h ⊢
      cases hr : (maybeWriteFile fs (dir ++ "/" ++ f.fileName)
          (patchSourceRoot f.fileName f.code)).2 with
      | true =>
        have hne := h ⟨dir ++ "/" ++ f.fileName, patchSourceRoot f.fileName f.code,
          WriteKind.decl, fmt, fs (dir ++ "/" ++ f.fileName)⟩
          (by rw [if_pos hr]; exact List.mem_singleton_self _)
        exact maybeWriteFile_other fs _ _ P (Ne.symm hne)
      | false =>
        rw [maybeWriteFile_skip fs _ _ hr]
    · rw [if_neg hf] at h ⊢

theorem fileEvents_frame (fmt dir : String) (fs : FS) (f : EmittedFile) (P : String)
    (h : ∀ e ∈ (fileEvents fmt dir fs f).2, e.path ≠ P) :
    (fileEvents fmt dir fs f).1 P = fs P := by
  unfold fileEvents at h ⊢
  cases hm : f.map with
  | none =>
    rw [hm] at h
    exact fileStep_frame fmt dir fs f P h
  | some m =>
    rw [hm] at h
    have hstep : ∀ e ∈ (fileStep fmt dir fs f).2, e.path ≠ P :=
      fun e he => h e (List.mem_append.mpr (Or.inl he))
    have hmapev := h _ (List.mem_append.mpr (Or.inr (List.mem_singleton_self _)))
    show writeFS (fileStep fmt dir fs f).1 (dir ++ "/" ++ f.fileName ++ ".map") m P
        = fs P
    rw [writeFS_other (fileStep fmt dir fs f).1 _ m P (Ne.symm hmapev)]
    exact fileStep_frame fmt dir fs f P hstep

theorem processFiles_frame (fmt dir : String) :
    ∀ (files : List EmittedFile) (fs : FS) (P : String),
      (∀ e ∈ (processFiles fmt dir fs files).2, e.path ≠ P) →
      (processFiles fmt dir fs files).1 P = fs P
  | [], _, _, _ => rfl
  | f :: rest, fs, P, h => by
    rw [processFiles_cons] at h
    have h1 : ∀ e ∈ (fileEvents fmt dir fs f).2, e.path ≠ P :=
      fun e he => h e (List.mem_append.mpr (Or.inl he))
    have h2 : ∀ e ∈ (processFiles fmt dir (fileEvents fmt dir fs f).1 rest).2,
        e.path ≠ P :=
      fun e he => h e (List.mem_append.mpr (Or.inr he))
    show (processFiles fmt dir (fileEvents fmt dir fs f).1 rest).1 P = fs P
    rw [processFiles_frame fmt dir rest (fileEvents fmt dir fs f).1 P h2]
    exact fileEvents_frame fmt dir fs f P h1

theorem runRollup_frame :
    ∀ (outputs : List OutputSpec) (fs : FS) (P : String),
      (∀ e ∈ (runRollup fs outputs).2, e.path ≠ P) →
      (runRollup fs outputs).1 P = fs P
  | [], _, _, _ => rfl
  | o :: rest, fs, P, h => by
    rw [runRollup_cons] at h
    have h1 : ∀ e ∈ (processOutput fs o).2, e.path ≠ P :=
      fun e he => h e (List.mem_append.mpr (Or.inl he))
    have h2 : ∀ e ∈ (runRollup (processOutput fs o).1 rest).2, e.path ≠ P :=
      fun e he => h e (List.mem_append.mpr (Or.inr he))
    show (runRollup (processOutput fs o).1 rest).1 P = fs P
    rw [runRollup_frame rest (processOutput fs o).1 P h2]
    exact processFiles_frame o.format (dirname o.file) o.files fs P h1

theorem fileEvents_bundle_mem (fmt dir : String) (fs : FS) (f : EmittedFile)
    (hd : testDts f.fileName = false) :
    ∃ e ∈ (fileEvents fmt dir fs f).2,
      e.path = dir ++ "/" ++ f.fileName ∧ e.kind = WriteKind.bundle
        ∧ e.content = f.code := by
  have hstepmem : (⟨dir ++ "/" ++ f.fileName, f.code, WriteKind.bundle, fmt,
      fs (dir ++ "/" ++ f.fileName)⟩ : WriteEvent) ∈ (fileStep fmt dir fs f).2 := by
    unfold fileStep
    rw [if_pos hd]
    exact List.mem_singleton_self _
  unfold fileEvents
  cases hm : f.map with
  | none => exact ⟨_, hstepmem, rfl, rfl, rfl⟩
  | some m => exact ⟨_, List.mem_append.mpr (Or.inl hstepmem), rfl, rfl, rfl⟩

theorem fileEvents_srcmap_mem (fmt dir : String) (fs : FS) (f : EmittedFile)
    (m : String) (hm : f.map = some m) :
    ∃ e ∈ (fileEvents fmt dir fs f).2,
      e.path = dir ++ "/" ++ f.fileName ++ ".map" ∧ e.kind = WriteKind.srcmap
        ∧ e.content = m := by
  unfold fileEvents
  rw [hm]
  exact ⟨_, List.mem_append.mpr (Or.inr (List.mem_singleton_self _)), rfl, rfl, rfl⟩

theorem processFiles_mem (fmt dir : String) (Q : WriteEvent → Prop) :
    ∀ (files : List EmittedFile) (fs : FS) (f : EmittedFile), f ∈ files →
      (∀ fs' : FS, ∃ e ∈ (fileEvents fmt dir fs' f).2, Q e) →
      ∃ e ∈ (processFiles fmt dir fs files).2, Q e
  | [], _, f, hf, _ => absurd hf (List.not_mem_nil f)
  | g :: rest, fs, f, hf, hex => by
    rw [processFiles_cons]
    rcases List.mem_cons.mp hf with rfl | htail
    · obtain ⟨e, he, hQ⟩ := hex fs
      exact ⟨e, List.mem_append.mpr (Or.inl he), hQ⟩
    · obtain ⟨e, he, hQ⟩ :=
        processFiles_mem fmt dir Q rest (fileEvents fmt dir fs g).1 f htail hex
      exact ⟨e, List.mem_append.mpr (Or.inr he), hQ⟩

theorem runRollup_mem (Q : WriteEvent → Prop) :
    ∀ (outputs : List OutputSpec) (fs : FS) (o : OutputSpec), o ∈ outputs →
      (∀ fs' : FS, ∃ e ∈ (processOutput fs' o).2, Q e) →
      ∃ e ∈ (runRollup fs outputs).2, Q e
  | [], _, o, ho, _ => absurd ho (List.not_mem_nil o)
  | o' :: rest, fs, o, ho, hex => by
    rw [runRollup_cons]
    rcases List.mem_cons.mp ho with rfl | htail
    · obtain ⟨e, he, hQ⟩ := hex fs
      exact ⟨e, List.mem_append.mpr (Or.inl he), hQ⟩
    · obtain ⟨e, he, hQ⟩ :=
        runRollup_mem Q rest (processOutput fs o').1 o htail hex
      exact ⟨e, List.mem_append.mpr (Or.inr he), hQ⟩

/-- C4: during one build (`runRollup`), (1) every write of a
declaration artifact happens through the cjs output's emission and
only when the on-disk content differs from what is to be written
(size-or-bytes check of `maybeWriteFile`; the recorded `prior` content
differs from the written content); (2) the declaration-branch write
paths are duplicate-free, so each declaration artifact is written at
most once; (3) a path no write event touches keeps its exact content
— in particular a declaration file whose produced bytes equal the
on-disk bytes gets no write event, so its content, size and mtime are
unchanged; (4) non-declaration bundle artifacts and (5) source maps
are written unconditionally; and (6) `maybeWriteFile` on a
byte-identical file is a no-op returning the filesystem unchanged. -/
theorem c4_decl_write_discipline
    (outputs : List OutputSpec) (fs0 : FS) (P : String)
    (oo : OutputSpec) (f g : EmittedFile) (mct : String)
    (fsx : FS) (px cx : String)
    (hcount : outputs.countP (fun o => o.format == "cjs") ≤ 1)
    (hnd : ∀ o ∈ outputs, o.format = "cjs" →
      (o.files.map (fun f => f.fileName)).Nodup)
    (hfree : ∀ e ∈ (runRollup fs0 outputs).2, e.path ≠ P)
    (ho : oo ∈ outputs) (hf : f ∈ oo.files) (hfd : testDts f.fileName = false)
    (hg : g ∈ oo.files) (hgm : g.map = some mct)
    (hsame : fsx px = some cx) :
    (∀ e ∈ (runRollup fs0 outputs).2, e.kind = WriteKind.decl →
        e.fmt = "cjs" ∧ e.prior ≠ some e.content)
    ∧ (declPaths (runRollup fs0 outputs).2).Nodup
    ∧ (runRollup fs0 outputs).1 P = fs0 P
    ∧ (∃ e ∈ (runRollup fs0 outputs).2,
        e.path = dirname oo.file ++ "/" ++ f.fileName
          ∧ e.kind = WriteKind.bundle ∧ e.content = f.code)
    ∧ (∃ e ∈ (runRollup fs0 outputs).2,
        e.path = dirname oo.file ++ "/" ++ g.fileName ++ ".map"
          ∧ e.kind = WriteKind.srcmap ∧ e.content = mct)
    ∧ maybeWriteFile fsx px cx = (fsx, false) := by
  refine ⟨?_, ?_, ?_, ?_, ?_, ?_⟩
  · exact fun e he hk => runRollup_sound outputs fs0 e he hk
  · exact runRollup_declPaths_nodup outputs fs0 hcount hnd
  · exact runRollup_frame outputs fs0 P hfree
  · exact runRollup_mem _ outputs fs0 oo ho (fun fs' =>
      processFiles_mem oo.format (dirname oo.file) _ oo.files fs' f hf
        (fun fs'' => fileEvents_bundle_mem oo.format (dirname oo.file) fs'' f hfd))
  · exact runRollup_mem _ outputs fs0 oo ho (fun fs' =>
      processFiles_mem oo.format (dirname oo.file) _ oo.files fs' g hg
        (fun fs'' => fileEvents_srcmap_mem oo.format (dirname oo.file) fs'' g mct hgm))
  · unfold maybeWriteFile
    rw [hsame]
    simp

theorem c4_decl_write_discipline_witness :
    (∀ e ∈ (runRollup
        (fun p => if p = "d/dist/index.d.ts" then some "dts" else none)
        [⟨"es", "d/dist/index.es.js",
           [⟨"index.es.js", "ecode", some "emap"⟩, ⟨"index.d.ts", "dts", none⟩]⟩,
         ⟨"cjs", "d/dist/index.js",
           [⟨"index.js", "ccode", some "cmap"⟩, ⟨"index.d.ts", "dts", none⟩]⟩]).2,
      e.kind = WriteKind.decl → e.fmt = "cjs" ∧ e.prior ≠ some e.content)
    ∧ (declPaths (runRollup
        (fun p => if p = "d/dist/index.d.ts" then some "dts" else none)
        [⟨"es", "d/dist/index.es.js",
           [⟨"index.es.js", "ecode", some "emap"⟩, ⟨"index.d.ts", "dts", none⟩]⟩,
         ⟨"cjs", "d/dist/index.js",
           [⟨"index.js", "ccode", some "cmap"⟩, ⟨"index.d.ts", "dts", none⟩]⟩]).2).Nodup
    ∧ (runRollup
        (fun p => if p = "d/dist/index.d.ts" then some "dts" else none)
        [⟨"es", "d/dist/index.es.js",
           [⟨"index.es.js", "ecode", some "emap"⟩, ⟨"index.d.ts", "dts", none⟩]⟩,
         ⟨"cjs", "d/dist/index.js",
           [⟨"index.js", "ccode", some "cmap"⟩, ⟨"index.d.ts", "dts", none⟩]⟩]).1
        "untouched"
      = (fun p => if p = "d/dist/index.d.ts" then some "dts" else none) "untouched"
    ∧ (∃ e ∈ (runRollup
        (fun p => if p = "d/dist/index.d.ts" then some "dts" else none)
        [⟨"es", "d/dist/index.es.js",
           [⟨"index.es.js", "ecode", some "emap"⟩, ⟨"index.d.ts", "dts", none⟩]⟩,
         ⟨"cjs", "d/dist/index.js",
           [⟨"index.js", "ccode", some "cmap"⟩, ⟨"index.d.ts", "dts", none⟩]⟩]).2,
        e.path = dirname "d/dist/index.js" ++ "/"
            ++ EmittedFile.fileName ⟨"index.js", "ccode", some "cmap"⟩
          ∧ e.kind = WriteKind.bundle
          ∧ e.content = EmittedFile.code ⟨"index.js", "ccode", some "cmap"⟩)
    ∧ (∃ e ∈ (runRollup
        (fun p => if p = "d/dist/index.d.ts" then some "dts" else none)
        [⟨"es", "d/dist/index.es.js",
           [⟨"index.es.js", "ecode", some "emap"⟩, ⟨"index.d.ts", "dts", none⟩]⟩,
         ⟨"cjs", "d/dist/index.js",
           [⟨"index.js", "ccode", some "cmap"⟩, ⟨"index.d.ts", "dts", none⟩]⟩]).2,
        e.path = dirname "d/dist/index.js" ++ "/"
            ++ EmittedFile.fileName ⟨"index.js", "ccode", some "cmap"⟩ ++ ".map"
          ∧ e.kind = WriteKind.srcmap ∧ e.content = "cmap")
    ∧ maybeWriteFile (fun p => if p = "w" then some "c" else none) "w" "c"
        = ((fun p => if p = "w" then some "c" else none), false) :=
  c4_decl_write_discipline
    [⟨"es", "d/dist/index.es.js",
       [⟨"index.es.js", "ecode", some "emap"⟩, ⟨"index.d.ts", "dts", none⟩]⟩,
     ⟨"cjs", "d/dist/index.js",
       [⟨"index.js", "ccode", some "cmap"⟩, ⟨"index.d.ts", "dts", none⟩]⟩]
    (fun p => if p = "d/dist/index.d.ts" then some "dts" else none)
    "untouched"
    ⟨"cjs", "d/dist/index.js",
      [⟨"index.js", "ccode", some "cmap"⟩, ⟨"index.d.ts", "dts", none⟩]⟩
    ⟨"index.js", "ccode", some "cmap"⟩ ⟨"index.js", "ccode", some "cmap"⟩ "cmap"
    (fun p => if p = "w" then some "c" else none) "w" "c"
    (by decide) (by decide) (by decide) (by decide) (by decide) (by decide)
    (by decide) (by decide) (by rfl)

/-- C10: `rollupConfig` latches its first argument.  The first call
computes the configuration from its own options; any call with a
populated cache returns the cached object unchanged, regardless of
the new options; composing the two, the call after the first returns
exactly the first call's configuration and leaves the cache as is.
Whether the alternate esm output is produced is therefore fixed by
the first call's options (`hasEsmOutput` of the built configuration
equals that call's esm flag). -/
theorem c10_rollup_config_latch (p : Pkg) (o1 o2 : BuildOptions) (c : RConfig) :
    rollupConfig p none o1 = (mkRollupConfig p o1, some (mkRollupConfig p o1))
    ∧ rollupConfig p (some c) o2 = (c, some c)
    ∧ rollupConfig p (rollupConfig p none o1).2 o2
        = ((rollupConfig p none o1).1, (rollupConfig p none o1).2)
    ∧ hasEsmOutput (mkRollupConfig p o1) = o1.esm := by
  refine ⟨rfl, rfl, rfl, ?_⟩
  cases h : o1.esm with
  | true => simp [mkRollupConfig, hasEsmOutput, h]
  | false => simp [mkRollupConfig, hasEsmOutput, h]

theorem c8_config_errors_witness :
    (buildFilter ["common", "nope", "--force"]).dropWhile
        (fun n => registryV1.contains n) = "nope" :: []
    ∧ commandArity.find? (fun e => e.1 == "frobnicate") = none
    ∧ commandArity.find? (fun e => e.1 == "release") = some ("release", 1)
    ∧ 0 < ("release", 1).2
    ∧ (buildCmd registryV1 ["common", "nope", "--force"]
        = (Except.error "Unknown package nope",
           ((buildFilter ["common", "nope", "--force"]).takeWhile
             (fun n => registryV1.contains n)).map
               (fun n => (n, ["common", "nope", "--force"].contains "--force")))
      ∧ startDispatch "frobnicate" 0 = none
      ∧ startDispatch "release" 0 = none) :=
  ⟨by decide, by decide, by decide, by decide,
   c8_config_errors registryV1 ["common", "nope", "--force"] "nope" []
     "frobnicate" 0 "release" 0 ("release", 1) (by decide) (by decide) (by decide)
     (by decide)⟩

end Lz
